import Mathlib

/-!
Shallow embedding of the DMS document-management backend (Rust, axum + sqlx +
OpenDAL) and verification of its natural-language specification.

Each definition mirrors one item of the source:
  * `AppError`, `AppError.toMessage`, `AppError.intoResponse`  — src/error.rs
  * `CurrentUser`, `StorageAction`, `check_permission`         — src/auth.rs
  * `sanitize_folder_name`, `build_storage_path_with_folder`,
    version-number computation, metadata accumulation          — src/routes/upload.rs
  * `download_document`, `soft_delete_document`,
    `hard_delete_document` resolution logic                    — src/routes/documents.rs
  * route assembly                                             — src/routes/mod.rs

Database access is modelled by explicit state passing: a `Db` value holds the
rows the queries touch, and each sqlx query becomes a pure function over it.
Object-storage and audit inserts are modelled as recorded events where a claim
is about their ordering or fallibility.
-/

namespace DMS

/-! ## Error layer (src/error.rs) -/

/-- The `AppError` enum of src/error.rs.  Payloads of the 500-class variants
(`sqlx::Error`, `std::io::Error`, …) are modelled by their textual description,
which is all `into_response` uses. -/
inductive AppError where
  | BadRequest (msg : String)
  | NotFound (msg : String)
  | Db (e : String)
  | Io (e : String)
  | Env (e : String)
  | Other (e : String)
  deriving DecidableEq, Repr

/-- The `Display` impl derived by `thiserror` from the `#[error("...")]`
attributes in src/error.rs: each variant's message is the attribute's format
string with the payload substituted. -/
def AppError.toMessage : AppError → String
  | .BadRequest m => "bad request: " ++ m
  | .NotFound m => "not found: " ++ m
  | .Db e => "database error: " ++ e
  | .Io e => "io error: " ++ e
  | .Env e => "env error: " ++ e
  | .Other e => "other error: " ++ e

/-- HTTP status chosen by `AppError::into_response` (src/error.rs). -/
def AppError.statusCode : AppError → Nat
  | .BadRequest _ => 400
  | .NotFound _ => 404
  | .Db _ | .Io _ | .Env _ | .Other _ => 500

/-- The `ErrorBody` struct of src/error.rs: the serialized JSON object has this
single field. -/
structure ErrorBody where
  error : String
  deriving DecidableEq, Repr

/-- `AppError::into_response` (src/error.rs): status from the variant, body from
`self.to_string()` (the `Display` rendering). -/
def AppError.intoResponse (e : AppError) : Nat × ErrorBody :=
  (e.statusCode, ⟨e.toMessage⟩)

/-! ## Authentication & authorization (src/auth.rs) -/

/-- `CurrentUser` (src/auth.rs).  `Uuid` is modelled as `String`. -/
structure CurrentUser where
  id : String
  username : String
  role : String
  deriving DecidableEq, Repr

/-- `StorageAction` (src/auth.rs). -/
inductive StorageAction where
  | Read
  | Write
  | Delete
  | Stat
  | GetActions
  deriving DecidableEq, Repr

/-- The `Read` arm of `check_permission` (src/auth.rs): viewer, editor and
admin can all read.  Extracted as a named function because the source's
`Stat` arm calls `check_permission(user, StorageAction::Read)`, which
evaluates to exactly this check. -/
def check_permission_read (user : CurrentUser) : Except AppError Unit :=
  if user.role == "viewer" || user.role == "editor" || user.role == "admin" then
    .ok ()
  else
    .error (.BadRequest "Permission denied: read access required")

/-- `check_permission` (src/auth.rs): role strings are compared for exact
equality; the `Stat` arm defers to the `Read` check ("same as read for
now"). -/
def check_permission (user : CurrentUser) : StorageAction → Except AppError Unit
  | .Read => check_permission_read user
  | .Write =>
      if user.role == "editor" || user.role == "admin" then
        .ok ()
      else
        .error (.BadRequest "Permission denied: write access required")
  | .Delete =>
      if user.role == "admin" then
        .ok ()
      else
        .error (.BadRequest "Permission denied: admin access required")
  | .Stat => check_permission_read user
  | .GetActions =>
      if user.role == "admin" then
        .ok ()
      else
        .error (.BadRequest "Permission denied: admin access required")

/-- Modelled from the spec (section 4.5 matrix): whether a role is allowed to
perform an action.  Written from the spec's table, to be compared with
`check_permission`. -/
def specAllows (role : String) : StorageAction → Bool
  | .Read | .Stat => role == "viewer" || role == "editor" || role == "admin"
  | .Write => role == "editor" || role == "admin"
  | .Delete | .GetActions => role == "admin"

/-- Modelled from the spec (section 4.5): the action-specific denial message. -/
def specDenialMsg : StorageAction → String
  | .Read | .Stat => "Permission denied: read access required"
  | .Write => "Permission denied: write access required"
  | .Delete | .GetActions => "Permission denied: admin access required"

/-! ## Data model (src/models.rs)

`Uuid` is modelled as `String`, `DateTime<Utc>` as `Int`. -/

/-- `Document` (src/models.rs). -/
structure Document where
  id : String
  title : String
  category : Option String
  deleted_at : Option Int
  created_at : Int
  updated_at : Int
  deriving DecidableEq, Repr

/-- `DocumentVersion` (src/models.rs). -/
structure DocumentVersion where
  id : String
  document_id : String
  version_number : Int
  file_name : String
  file_path : String
  file_size : Int
  mime_type : Option String
  checksum : Option String
  created_at : Int
  deriving DecidableEq, Repr

/-- The rows the verified handlers query: the `documents` and
`document_versions` tables. -/
structure Db where
  documents : List Document
  versions : List DocumentVersion
  deriving Repr

/-! ## Upload route (src/routes/upload.rs) -/

/-- Rust's `str::trim`: remove leading and trailing whitespace. -/
def rustTrim (s : String) : String :=
  String.mk (((s.data.dropWhile Char.isWhitespace).reverse.dropWhile
    Char.isWhitespace).reverse)

/-- `sanitize_folder_name` (src/routes/upload.rs): keep alphanumeric, `_`
and `-`; replace every other character by `_`. -/
def sanitize_folder_name (name : String) : String :=
  String.mk (name.data.map (fun c =>
    if c.isAlphanum || c == '_' || c == '-' then c else '_'))

/-- `build_storage_path_with_folder` (src/routes/upload.rs): trim the folder
name, fall back to `"Uncategorized"` when absent or blank, and format
`{folder}/{document_id}/v{version_number}`. -/
def build_storage_path_with_folder (folder_name : Option String)
    (document_id : String) (version_number : Int) : String :=
  let folder :=
    match (folder_name.map rustTrim).filter (fun s => !s.isEmpty) with
    | some s => s
    | none => "Uncategorized"
  folder ++ "/" ++ document_id ++ "/v" ++ toString version_number

/-- The storage key computed by `upload_file` (src/routes/upload.rs line 391):
the handler passes the raw `category` field, unchanged, as the folder name
(`let folder_name = category.map(|s| s.to_string())`). -/
def uploadStoredPath (category : Option String) (document_id : String)
    (version_number : Int) : String :=
  build_storage_path_with_folder category document_id version_number

/-- Modelled from the spec (section 4.12 step 3-4 and section 6): the storage
key the spec prescribes, with the category sanitized character by character.
Written from the spec's words, to be compared with `uploadStoredPath`. -/
def specStoredPath (category : Option String) (document_id : String)
    (version_number : Int) : String :=
  let folder :=
    match (category.map rustTrim).filter (fun s => !s.isEmpty) with
    | some s => sanitize_folder_name s
    | none => "Uncategorized"
  folder ++ "/" ++ document_id ++ "/v" ++ toString version_number

/-- The version-number computation of `upload_file` (src/routes/upload.rs
lines 246-257): `SELECT MAX(version_number) + 1` over the document's versions
returns NULL when no rows exist, and the handler applies `unwrap_or(1)`.
The argument is the list of existing version numbers for the document. -/
def nextVersionNumber (versions : List Int) : Int :=
  match versions.max? with
  | some m => m + 1
  | none => 1

/-- The version numbers of one document after `k` sequential uploads, each
upload inserting a `DocumentVersion` row numbered by `nextVersionNumber`
(src/routes/upload.rs lines 223-285 and 405-422). -/
def uploadVersions : Nat → List Int
  | 0 => []
  | k + 1 =>
      let vs := uploadVersions k
      vs ++ [nextVersionNumber vs]

/-! ### Metadata accumulation (src/routes/upload.rs lines 100-161, 424-493)

The multipart loop accumulates metadata in a `HashMap<String, String>` (later
occurrences of a key overwrite earlier ones) and in a `Vec<String>` of keys
(one entry per occurrence).  The map is modelled as an association list whose
`insert` overwrites in place, which preserves exactly the observations the
code makes of the `HashMap`: `len()` (number of distinct keys) and the value
stored per key. -/

/-- `HashMap::insert`: overwrite the binding in place if the key is present,
otherwise add it. -/
def insertOverwrite (m : List (String × String)) (k v : String) :
    List (String × String) :=
  if m.any (fun p => p.1 == k) then
    m.map (fun p => if p.1 == k then (k, v) else p)
  else
    m ++ [(k, v)]

/-- One value of the `metadata` multipart field after JSON parsing: the
entries of the parsed `serde_json` object, each value either a JSON string
(`some s`, accepted by `v.as_str()`) or any other JSON shape (`none`,
silently skipped). -/
abbrev JsonObjectEntries := List (String × Option String)

/-- The metadata-relevant multipart fields of an upload request, in arrival
order: a field named `meta_<rest>` with text `val`, or a field named
`metadata` whose text parsed to a JSON object. -/
inductive MetaField where
  | metaPrefixed (name : String) (val : String)
  | metadataJson (entries : JsonObjectEntries)
  deriving Repr

/-- Accumulator state of the multipart loop: the `metadata` map and the
`metadata_keys` vector. -/
structure MetaAcc where
  metadata : List (String × String)
  metadata_keys : List String
  deriving Repr

/-- `Rust str::trim_start_matches("meta_")`: repeatedly strip the prefix. -/
def stripMetaPrefix : List Char → List Char
  | 'm' :: 'e' :: 't' :: 'a' :: '_' :: rest => stripMetaPrefix rest
  | l => l

/-- The body shared by the two metadata-accumulating match arms of the
multipart loop: insert into the map and push the key, skipping empty keys. -/
def accumulateMeta (acc : MetaAcc) (key val : String) : MetaAcc :=
  if key.isEmpty then acc
  else
    { metadata := insertOverwrite acc.metadata key val
      metadata_keys := acc.metadata_keys ++ [key] }

/-- Processing of one metadata-relevant multipart field (the `"metadata"` and
`meta_`-prefixed arms of the loop in src/routes/upload.rs lines 129-158). -/
def processMetaField (acc : MetaAcc) : MetaField → MetaAcc
  | .metaPrefixed name val =>
      accumulateMeta acc (String.mk (stripMetaPrefix name.data)) val
  | .metadataJson entries =>
      entries.foldl (fun a e =>
        match e.2 with
        | some v => accumulateMeta a e.1 v
        | none => a) acc

/-- The whole loop over the metadata-relevant fields. -/
def processMetaFields (fields : List MetaField) : MetaAcc :=
  fields.foldl processMetaField { metadata := [], metadata_keys := [] }

/-- `metadata_message` of the `UploadResponse` (src/routes/upload.rs
lines 485-492). -/
def metadata_message (metadata_count : Nat) (metadata_keys : List String) :
    String :=
  "Inserted/updated " ++ toString metadata_count ++ " metadata entries" ++
    (if metadata_count > 0 then ": " ++ String.intercalate "," metadata_keys
     else "")

/-- The (key, value) occurrences one metadata-relevant field supplies, in
order, with the same key normalization and skipping as the loop. -/
def occOfField : MetaField → List (String × String)
  | .metaPrefixed name val =>
      let key := String.mk (stripMetaPrefix name.data)
      if key.isEmpty then [] else [(key, val)]
  | .metadataJson entries =>
      entries.flatMap (fun e =>
        match e.2 with
        | some v => if e.1.isEmpty then [] else [(e.1, v)]
        | none => [])

/-- The flat sequence of (key, value) occurrences a field list supplies. -/
def metaOccurrences (fields : List MetaField) : List (String × String) :=
  fields.flatMap occOfField

/-- `HashMap::get`-style lookup on the association-list model. -/
def lookupMeta (m : List (String × String)) (k : String) : Option String :=
  (m.find? (fun p => p.1 == k)).map (·.2)

/-- The value of the last occurrence of key `k` in an occurrence list. -/
def lastValue (occ : List (String × String)) (k : String) : Option String :=
  occ.foldl (fun acc p => if p.1 == k then some p.2 else acc) none

/-! ## Side-effect events

The claims about audit logging are claims about the order of the
side-effecting calls a handler makes and about the fallibility of the audit
insert.  Each handler below therefore also returns the list of its
side-effecting calls, in source order. -/

/-- One side-effecting call made by a handler, in source order. -/
inductive Ev where
  | dbBegin
  | dbSelectDocument
  | dbSelectMaxVersion
  | dbSelectVersion
  | dbSelectVersions
  | dbInsertDocument (row : Document)
  | dbInsertVersion (row : DocumentVersion)
  | dbInsertMetadata (key : String) (val : String)
  | dbUpdateDeletedAt
  | dbDeleteDocumentRow
  | dbCommit
  | storageStat (key : String)
  | storageWrite (key : String)
  | storageRead (key : String)
  | storageDelete (key : String)
  | auditInsert
  | warnLog
  deriving DecidableEq, Repr

/-- The audit insert (src/audit.rs `log_action`) followed by the handler's
treatment of its result: every call site only logs a warning on failure
(`if let Err(e) = log_... { warn!(...) }`). -/
def auditEvents (auditOk : Bool) : List Ev :=
  [.auditInsert] ++ (if auditOk then [] else [.warnLog])

/-! ## Document queries (src/routes/documents.rs) -/

/-- `SELECT ... FROM documents WHERE id = $1 AND deleted_at IS NULL`
(download handler, src/routes/documents.rs lines 54-64). -/
def findActiveDocument (db : Db) (id : String) : Option Document :=
  db.documents.find? (fun d => d.id == id && d.deleted_at == none)

/-- `SELECT ... FROM documents WHERE id = $1` (soft/hard delete and upload:
no soft-deletion filter). -/
def findDocumentById (db : Db) (id : String) : Option Document :=
  db.documents.find? (fun d => d.id == id)

/-- The version numbers recorded for one document. -/
def documentVersionNumbers (db : Db) (docId : String) : List Int :=
  (db.versions.filter (fun v => v.document_id == docId)).map (·.version_number)

/-- `SELECT MAX(version_number) FROM document_versions WHERE document_id = $1`:
NULL (`none`) when the document has no versions. -/
def maxVersionNumber (db : Db) (docId : String) : Option Int :=
  (documentVersionNumbers db docId).max?

/-- `SELECT ... FROM document_versions WHERE document_id = $1 AND
version_number = $2`, fetched optionally. -/
def findVersion (db : Db) (docId : String) (n : Int) : Option DocumentVersion :=
  db.versions.find? (fun v => v.document_id == docId && v.version_number == n)

/-- The object store, as a map from key to content (content modelled as a
`String` of bytes). -/
abbrev Storage := List (String × String)

/-- `state.storage.read(key)`: `some` content on success. -/
def storageReadKey (storage : Storage) (key : String) : Option String :=
  (storage.find? (fun p => p.1 == key)).map (·.2)

/-! ## Download handler (src/routes/documents.rs `download_document`) -/

/-- The HTTP response built on the download success path. -/
structure DownloadResponse where
  status : Nat
  content_type : String
  content_disposition : String
  body : String
  deriving DecidableEq, Repr

/-- The response built at src/routes/documents.rs lines 125-157: status 200,
`Content-Type` from the stored mime type with `application/octet-stream` as
default, `Content-Disposition: attachment` with the stored file name. -/
def downloadResponseFor (dv : DocumentVersion) (data : String) : DownloadResponse :=
  { status := 200
    content_type := dv.mime_type.getD "application/octet-stream"
    content_disposition := "attachment; filename=\"" ++ dv.file_name ++ "\""
    body := data }

/-- `download_document` (src/routes/documents.rs lines 41-161).  `auditOk`
models whether the audit insert succeeds; storage read failure is modelled as
an internal error (it propagates with `?`). -/
def download_document (user : CurrentUser) (db : Db) (storage : Storage)
    (document_id : String) (qv : Option Int) (auditOk : Bool) :
    Except AppError DownloadResponse × List Ev :=
  match check_permission user .Read with
  | .error e => (.error e, [])
  | .ok _ =>
    match findActiveDocument db document_id with
    | none => (.error (.NotFound "Document not found or has been deleted"),
               [.dbSelectDocument])
    | some _ =>
      let resolved : Except AppError Int × List Ev :=
        match qv with
        | some v => (.ok v, [])
        | none =>
          match maxVersionNumber db document_id with
          | some m => (.ok m, [.dbSelectMaxVersion])
          | none => (.error (.NotFound "no versions found for this document"),
                     [.dbSelectMaxVersion])
      match resolved with
      | (.error e, evs) => (.error e, .dbSelectDocument :: evs)
      | (.ok version_number, evs) =>
        match findVersion db document_id version_number with
        | none => (.error (.NotFound "document version not found"),
                   .dbSelectDocument :: evs ++ [.dbSelectVersion])
        | some dv =>
          match storageReadKey storage dv.file_path with
          | none => (.error (.Other "storage read failed"),
                     .dbSelectDocument :: evs ++ [.dbSelectVersion, .storageRead dv.file_path])
          | some data =>
            (.ok (downloadResponseFor dv data),
             .dbSelectDocument :: evs
               ++ [.dbSelectVersion, .storageRead dv.file_path]
               ++ auditEvents auditOk)

/-! ## Soft delete handler (src/routes/documents.rs `soft_delete_document`) -/

/-- The row transformation of
`UPDATE documents SET deleted_at = CURRENT_TIMESTAMP WHERE id = $1 AND
deleted_at IS NULL` (src/routes/documents.rs lines 226-237). -/
def condUpdateRow (id : String) (now : Int) (d : Document) : Document :=
  if d.id == id && d.deleted_at == none then { d with deleted_at := some now }
  else d

/-- The conditional update applied to the whole `documents` table, together
with `rows_affected`. -/
def condUpdateSetDeletedAt (docs : List Document) (id : String) (now : Int) :
    List Document × Nat :=
  (docs.map (condUpdateRow id now),
   (docs.filter (fun d => d.id == id && d.deleted_at == none)).length)

/-- The success body of the soft delete handler. -/
structure SoftDeleteResponse where
  message : String
  document_id : String
  deleted_at : Int
  deriving DecidableEq, Repr

/-- `soft_delete_document` (src/routes/documents.rs lines 183-276).
`updateDocs` is the `documents` table at the moment the conditional `UPDATE`
executes; under sequential execution it equals `db.documents`, and a
concurrent soft delete between the `SELECT` and the `UPDATE` is modelled by
passing a different table.  Returns (result, table after the handler, side
effects). -/
def soft_delete_document (user : CurrentUser) (db : Db)
    (updateDocs : List Document) (now : Int) (document_id : String)
    (auditOk : Bool) :
    Except AppError SoftDeleteResponse × List Document × List Ev :=
  match check_permission user .Delete with
  | .error e => (.error e, updateDocs, [])
  | .ok _ =>
    match findDocumentById db document_id with
    | none => (.error (.NotFound "Document not found"), updateDocs,
               [.dbSelectDocument])
    | some d =>
      if d.deleted_at.isSome then
        (.error (.BadRequest "Document is already deleted"), updateDocs,
         [.dbSelectDocument])
      else
        let updated := condUpdateSetDeletedAt updateDocs document_id now
        if updated.2 == 0 then
          (.error (.BadRequest "Document is already deleted or not found"),
           updated.1, [.dbSelectDocument, .dbUpdateDeletedAt])
        else
          (.ok { message := "Document soft-deleted successfully"
                 document_id := document_id
                 deleted_at := now },
           updated.1,
           [.dbSelectDocument, .dbUpdateDeletedAt] ++ auditEvents auditOk)

/-! ## Hard delete handler (src/routes/documents.rs `hard_delete_document`) -/

/-- The success body of the hard delete handler. -/
structure HardDeleteResponse where
  message : String
  document_id : String
  versions_deleted : Nat
  deriving DecidableEq, Repr

/-- `hard_delete_document` (src/routes/documents.rs lines 296-427): select the
document with no `deleted_at` filter, select all its versions, best-effort
delete each version's storage key, write the audit entry, then delete the
document row (relational cascade removes versions and metadata). -/
def hard_delete_document (user : CurrentUser) (db : Db) (document_id : String)
    (auditOk : Bool) : Except AppError HardDeleteResponse × List Ev :=
  match check_permission user .Delete with
  | .error e => (.error e, [])
  | .ok _ =>
    match findDocumentById db document_id with
    | none => (.error (.NotFound "Document not found"), [.dbSelectDocument])
    | some _ =>
      let versions := db.versions.filter (fun v => v.document_id == document_id)
      let deleteEvs := versions.map (fun v => Ev.storageDelete v.file_path)
      let rows := (db.documents.filter (fun d => d.id == document_id)).length
      if rows == 0 then
        (.error (.NotFound "Document not found"),
         [.dbSelectDocument, .dbSelectVersions] ++ deleteEvs
           ++ auditEvents auditOk ++ [.dbDeleteDocumentRow])
      else
        (.ok { message := "Document hard-deleted successfully"
               document_id := document_id
               versions_deleted := versions.length },
         [.dbSelectDocument, .dbSelectVersions] ++ deleteEvs
           ++ auditEvents auditOk ++ [.dbDeleteDocumentRow])

/-! ## Upload handler (src/routes/upload.rs `upload_file`) -/

/-- The `UploadResponse` DTO (src/dtos.rs). -/
structure UploadResponse where
  document_id : String
  version_id : String
  stored_path : String
  metadata_message : String
  deriving DecidableEq, Repr

/-- The `DocumentVersion` row inserted by the upload handler
(src/routes/upload.rs lines 405-422): `file_path` is the computed storage
key and `checksum` is always absent. -/
def uploadVersionRow (newVersionId docId : String) (nv : Int)
    (file_name stored_path : String) (file_size : Int) (mime : Option String)
    (now : Int) : DocumentVersion :=
  { id := newVersionId, document_id := docId, version_number := nv
    file_name := file_name, file_path := stored_path, file_size := file_size
    mime_type := mime, checksum := none, created_at := now }

/-- The handler's local state once the multipart loop has finished
(src/routes/upload.rs line 163): the accumulated form fields.  A present
`document_id` has already parsed as a UUID (the loop rejects other values). -/
structure UploadForm where
  document_id : Option String
  title : Option String
  category : Option String
  file_name : Option String
  file_bytes : Option String
  mime_type : Option String
  meta : List MetaField

/-- `upload_file` (src/routes/upload.rs lines 74-504), from the end of the
multipart loop onward.  `sidecarExists` models the result of
`state.storage.stat(&metadata_path)`; `newDocId`, `newVersionId` and `now`
stand for the database-generated identifiers and timestamps; `auditOk` models
the audit insert's outcome.  Returns (result, side effects in source order). -/
def upload_file (user : CurrentUser) (db : Db) (sidecarExists : Bool)
    (form : UploadForm) (newDocId newVersionId : String) (now : Int)
    (auditOk : Bool) : Except AppError UploadResponse × List Ev :=
  match check_permission user .Write with
  | .error e => (.error e, [])
  | .ok _ =>
    match form.file_bytes with
    | none => (.error (.BadRequest "Missing file"), [])
    | some bytes =>
      let file_name := form.file_name.getD "upload.bin"
      let file_size : Int := bytes.length
      -- `state.pool.begin()`
      let step1 : Except AppError (Document × Int) × List Ev :=
        match form.document_id with
        | some doc_id =>
          match findDocumentById db doc_id with
          | none => (.error (.BadRequest "document_id not found"),
                     [.dbSelectDocument])
          | some d =>
            (.ok (d, nextVersionNumber (documentVersionNumbers db doc_id)),
             [.dbSelectDocument, .dbSelectMaxVersion])
        | none =>
          match form.title with
          | some t =>
            if !t.isEmpty then
              let d : Document :=
                { id := newDocId, title := t, category := form.category
                  deleted_at := none, created_at := now, updated_at := now }
              (.ok (d, 1), [.dbInsertDocument d])
            else
              (.error (.BadRequest "Missing title"), [])
          | none => (.error (.BadRequest "Missing title"), [])
      match step1 with
      | (.error e, evs) => (.error e, .dbBegin :: evs)
      | (.ok (document, next_version_number), evs) =>
        -- sidecar folder metadata (lines 348-389): keyed by the *sanitized*
        -- category; the write is best effort.
        let sidecarEvs : List Ev :=
          match form.category with
          | some cat =>
            let metadata_path :=
              sanitize_folder_name cat ++ "/.folder_metadata.json"
            [.storageStat metadata_path]
              ++ (if !sidecarExists then [.storageWrite metadata_path] else [])
          | none => []
        -- line 391: the raw category, not the sanitized name, builds the key
        let stored_path :=
          build_storage_path_with_folder form.category document.id
            next_version_number
        let versionRow := uploadVersionRow newVersionId document.id
          next_version_number file_name stored_path file_size form.mime_type now
        let acc := processMetaFields form.meta
        let metadata_count := acc.metadata.length
        let metaEvs := acc.metadata.map (fun p => Ev.dbInsertMetadata p.1 p.2)
        let response : UploadResponse :=
          { document_id := document.id
            version_id := newVersionId
            stored_path := stored_path
            metadata_message := metadata_message metadata_count acc.metadata_keys }
        (.ok response,
         .dbBegin :: evs ++ sidecarEvs
           ++ [.storageWrite stored_path, .dbInsertVersion versionRow]
           ++ metaEvs ++ [.dbCommit] ++ auditEvents auditOk)

/-! ## Route assembly (src/routes/mod.rs) -/

/-- The route table registered by `upload::routes()`. -/
def upload_route_table : List (String × String) := [("POST", "/upload")]

/-- The route table registered by `documents::routes()`. -/
def documents_route_table : List (String × String) :=
  [("GET", "/documents"), ("GET", "/documents/:id/content"),
   ("DELETE", "/documents/:id"), ("DELETE", "/documents/:id/hard")]

/-- The route table registered by `audit::routes()`. -/
def audit_route_table : List (String × String) := [("GET", "/audit")]

/-- The route table registered by `login::routes()` (src/routes/login.rs). -/
def login_route_table : List (String × String) := [("POST", "/auth/login")]

/-- The route table registered by `folders::routes()` (src/routes/folders.rs). -/
def folders_route_table : List (String × String) :=
  [("POST", "/folders"), ("GET", "/folders")]

/-- The route table registered by `tags::routes()` (src/routes/tags.rs). -/
def tags_route_table : List (String × String) := [("POST", "/tags")]

/-- The paths served by the mounted SwaggerUi documentation UI. -/
def swagger_route_table : List (String × String) :=
  [("GET", "/swagger-ui"), ("GET", "/api-doc/openapi.json")]

/-- An assembled axum router: its route table and whether the tracing layer
wraps it. -/
structure AppRouter where
  routes : List (String × String)
  traced : Bool
  deriving DecidableEq, Repr

/-- `router` (src/routes/mod.rs lines 13-40): merges the SwaggerUi mount and
the `upload`, `documents` and `audit` route groups, then applies the
`TraceLayer`.  The `login`, `folders` and `tags` groups are not merged (and
`mod.rs` declares only `pub mod upload; pub mod documents; pub mod audit;`,
although src/openapi.rs refers to `crate::routes::login`,
`crate::routes::folders` and `crate::routes::tags`). -/
def router : AppRouter :=
  { routes := swagger_route_table ++ upload_route_table
      ++ documents_route_table ++ audit_route_table
    traced := true }

/-! ## Helper lemmas -/


/-- The explicit list `[1, 2, …, k]`. -/
def seqVersions (k : Nat) : List Int :=
  (List.range k).map (fun i => (i : Int) + 1)

theorem seqVersions_succ (j : Nat) :
    seqVersions (j + 1) = seqVersions j ++ [(j : Int) + 1] := by
  simp [seqVersions, List.range_succ]

theorem max?_append_singleton (l : List Int) (x : Int) :
    (l ++ [x]).max? = some (match l.max? with | some m => max m x | none => x) := by
  cases l with
  | nil => simp [List.max?]
  | cons a l' => simp [List.max?, List.foldl_append]

theorem uploadVersions_spec (k : Nat) :
    uploadVersions k = seqVersions k
    ∧ (uploadVersions k).max? = (if k = 0 then none else some (k : Int)) := by
  induction k with
  | zero => simp [uploadVersions, seqVersions, List.max?]
  | succ j ih =>
    obtain ⟨h1, h2⟩ := ih
    have hnext : nextVersionNumber (uploadVersions j) = (j : Int) + 1 := by
      rw [nextVersionNumber, h2]
      by_cases hj : j = 0
      · subst hj; simp
      · simp [hj]
    constructor
    · rw [uploadVersions, hnext, h1, seqVersions_succ]
    · rw [uploadVersions, hnext, max?_append_singleton, h2]
      by_cases hj : j = 0
      · subst hj; simp
      · have hmax : max (j : Int) ((j : Int) + 1) = (j : Int) + 1 :=
          max_eq_right (by omega)
        simp [hj, hmax]

theorem find?_map_overwrite_ne (k' v k : String) (hkk : k ≠ k') :
    ∀ m : List (String × String),
      (m.map (fun p => if p.1 == k' then (k', v) else p)).find?
          (fun p => p.1 == k)
        = m.find? (fun p => p.1 == k) := by
  intro m
  induction m with
  | nil => rfl
  | cons q m ih =>
    rw [List.map_cons]
    by_cases hq : q.1 = k'
    · have hf : (if q.1 == k' then (k', v) else q) = (k', v) := by simp [hq]
      rw [hf, List.find?_cons_of_neg _ (by simp [Ne.symm hkk]),
        List.find?_cons_of_neg _ (by simp [hq, Ne.symm hkk])]
      exact ih
    · have hf : (if q.1 == k' then (k', v) else q) = q := by simp [hq]
      rw [hf]
      by_cases hk : ((fun p : String × String => p.1 == k) q) = true
      · rw [List.find?_cons_of_pos (p := fun p : String × String => p.1 == k) _ hk,
          List.find?_cons_of_pos (p := fun p : String × String => p.1 == k) _ hk]
      · rw [List.find?_cons_of_neg (p := fun p : String × String => p.1 == k) _ hk,
          List.find?_cons_of_neg (p := fun p : String × String => p.1 == k) _ hk]
        exact ih

theorem find?_map_overwrite_eq (k' v : String) :
    ∀ m : List (String × String),
      m.any (fun p => p.1 == k') = true →
      (m.map (fun p => if p.1 == k' then (k', v) else p)).find?
          (fun p => p.1 == k')
        = some (k', v) := by
  intro m
  induction m with
  | nil => intro h; simp at h
  | cons q m ih =>
    intro h
    rw [List.map_cons]
    by_cases hq : q.1 = k'
    · have hf : (if q.1 == k' then (k', v) else q) = (k', v) := by simp [hq]
      rw [hf, List.find?_cons_of_pos _ (by simp)]
    · have hf : (if q.1 == k' then (k', v) else q) = q := by simp [hq]
      have h2 : m.any (fun p => p.1 == k') = true := by
        simpa [List.any_cons, hq] using h
      rw [hf, List.find?_cons_of_neg _ (by simp [hq])]
      exact ih h2

theorem find?_none_of_any_false (k' : String) (m : List (String × String))
    (h : m.any (fun p => p.1 == k') = false) :
    m.find? (fun p => p.1 == k') = none := by
  refine List.find?_eq_none.mpr ?_
  intro x hx
  exact List.any_eq_false.mp h x hx

theorem lookupMeta_insertOverwrite (m : List (String × String)) (k' v k : String) :
    lookupMeta (insertOverwrite m k' v) k =
      if k' == k then some v else lookupMeta m k := by
  unfold insertOverwrite lookupMeta
  by_cases hany : m.any (fun p => p.1 == k') = true
  · rw [if_pos hany]
    by_cases hkk : k' = k
    · subst hkk
      rw [find?_map_overwrite_eq k' v m hany]
      simp
    · rw [find?_map_overwrite_ne k' v k (Ne.symm hkk) m]
      simp [hkk]
  · rw [if_neg hany, List.find?_append]
    have hany' : m.any (fun p => p.1 == k') = false :=
      Bool.eq_false_iff.mpr hany
    by_cases hkk : k' = k
    · subst hkk
      rw [find?_none_of_any_false k' m hany']
      simp [List.find?]
    · have hb : (k' == k) = false := by simp [hkk]
      rw [List.find?_cons_of_neg _ (by simp [hkk])]
      simp [hb]

/-- One fold step over a (key, value) occurrence. -/
def stepIns (m : List (String × String)) (p : String × String) :
    List (String × String) :=
  insertOverwrite m p.1 p.2

theorem accumulateMeta_eq (acc : MetaAcc) (k v : String) :
    accumulateMeta acc k v =
      { metadata :=
          ((if k.isEmpty then [] else [(k, v)]) : List (String × String)).foldl
            stepIns acc.metadata
        metadata_keys := acc.metadata_keys
          ++ ((if k.isEmpty then [] else [(k, v)]) : List (String × String)).map
              Prod.fst } := by
  by_cases h : k.isEmpty <;> simp [accumulateMeta, h, stepIns]

theorem jsonFold_eq (entries : JsonObjectEntries) :
    ∀ acc : MetaAcc,
      entries.foldl (fun a e =>
          match e.2 with
          | some v => accumulateMeta a e.1 v
          | none => a) acc
        = { metadata := (occOfField (.metadataJson entries)).foldl stepIns
              acc.metadata
            metadata_keys := acc.metadata_keys
              ++ (occOfField (.metadataJson entries)).map Prod.fst } := by
  induction entries with
  | nil => intro acc; simp [occOfField]
  | cons e es ih =>
    intro acc
    rw [List.foldl_cons]
    cases hv : e.2 with
    | none =>
      rw [ih acc]
      simp [occOfField, hv]
    | some v =>
      rw [ih (accumulateMeta acc e.1 v)]
      by_cases he : e.1.isEmpty
      · simp [occOfField, hv, he, accumulateMeta_eq]
      · simp [occOfField, hv, he, accumulateMeta_eq]

theorem processMetaField_eq (acc : MetaAcc) (f : MetaField) :
    processMetaField acc f =
      { metadata := (occOfField f).foldl stepIns acc.metadata
        metadata_keys := acc.metadata_keys ++ (occOfField f).map Prod.fst } := by
  cases f with
  | metaPrefixed name val =>
    rw [processMetaField, accumulateMeta_eq]
    simp [occOfField]
  | metadataJson entries =>
    rw [processMetaField, jsonFold_eq]

theorem foldl_processMetaField_eq (fields : List MetaField) :
    ∀ acc : MetaAcc,
      fields.foldl processMetaField acc =
        { metadata := (metaOccurrences fields).foldl stepIns acc.metadata
          metadata_keys := acc.metadata_keys
            ++ (metaOccurrences fields).map Prod.fst } := by
  induction fields with
  | nil => intro acc; simp [metaOccurrences]
  | cons f fs ih =>
    intro acc
    rw [List.foldl_cons, processMetaField_eq, ih]
    simp [metaOccurrences, List.foldl_append]

theorem processMetaFields_eq (fields : List MetaField) :
    processMetaFields fields =
      { metadata := (metaOccurrences fields).foldl stepIns []
        metadata_keys := (metaOccurrences fields).map Prod.fst } := by
  rw [processMetaFields, foldl_processMetaField_eq]
  simp

theorem lookupMeta_foldl (occ : List (String × String)) :
    ∀ (m : List (String × String)) (k : String),
      lookupMeta (occ.foldl stepIns m) k =
        occ.foldl (fun acc p => if p.1 == k then some p.2 else acc)
          (lookupMeta m k) := by
  induction occ with
  | nil => intro m k; rfl
  | cons p occ ih =>
    intro m k
    rw [List.foldl_cons, List.foldl_cons, ih]
    congr 1
    rw [stepIns, lookupMeta_insertOverwrite]

theorem lookupMeta_lastValue (occ : List (String × String)) (k : String) :
    lookupMeta (occ.foldl stepIns []) k = lastValue occ k := by
  rw [lookupMeta_foldl, lastValue]
  rfl

theorem keys_insertOverwrite (m : List (String × String)) (k' v : String) :
    (insertOverwrite m k' v).map Prod.fst =
      if m.any (fun p => p.1 == k') then m.map Prod.fst
      else m.map Prod.fst ++ [k'] := by
  unfold insertOverwrite
  by_cases h : m.any (fun p => p.1 == k') = true
  · rw [if_pos h, if_pos h, List.map_map]
    apply List.map_congr_left
    intro p _
    by_cases hp : p.1 = k'
    · simp [hp]
    · simp [hp]
  · rw [if_neg h, if_neg h, List.map_append]
    rfl

theorem keys_foldl (occ : List (String × String)) :
    ∀ m : List (String × String),
      (m.map Prod.fst).Nodup →
      ((occ.foldl stepIns m).map Prod.fst).Nodup
      ∧ (∀ k, k ∈ (occ.foldl stepIns m).map Prod.fst ↔
          k ∈ m.map Prod.fst ∨ k ∈ occ.map Prod.fst) := by
  induction occ with
  | nil =>
    intro m hm
    exact ⟨hm, fun k => by simp⟩
  | cons p occ ih =>
    intro m hm
    rw [List.foldl_cons]
    have hkeys := keys_insertOverwrite m p.1 p.2
    by_cases hany : m.any (fun q => q.1 == p.1) = true
    · have hmem : p.1 ∈ m.map Prod.fst := by
        rcases List.any_eq_true.mp hany with ⟨q, hq, hqe⟩
        exact List.mem_map.mpr ⟨q, hq, (by simpa using hqe)⟩
      have hkeq : (stepIns m p).map Prod.fst = m.map Prod.fst := by
        rw [stepIns, hkeys, if_pos hany]
      obtain ⟨h1, h2⟩ := ih (stepIns m p) (by rw [hkeq]; exact hm)
      refine ⟨h1, fun k => ?_⟩
      rw [h2 k, hkeq]
      constructor
      · rintro (h | h)
        · exact Or.inl h
        · exact Or.inr (by simp [h])
      · rintro (h | h)
        · exact Or.inl h
        · rcases List.mem_map.mp h with ⟨q, hq, rfl⟩
          rcases List.mem_cons.mp hq with rfl | hq'
          · exact Or.inl hmem
          · exact Or.inr (List.mem_map.mpr ⟨q, hq', rfl⟩)
    · have hnotmem : p.1 ∉ m.map Prod.fst := by
        intro hc
        rcases List.mem_map.mp hc with ⟨q, hq, hqe⟩
        have := List.any_eq_false.mp (Bool.eq_false_iff.mpr hany) q hq
        exact this (by simp [hqe])
      have hkeq : (stepIns m p).map Prod.fst = m.map Prod.fst ++ [p.1] := by
        rw [stepIns, hkeys, if_neg hany]
      obtain ⟨h1, h2⟩ := ih (stepIns m p) (by
        rw [hkeq]
        exact List.Nodup.append hm (List.nodup_singleton _)
          (by simpa using hnotmem))
      refine ⟨h1, fun k => ?_⟩
      rw [h2 k, hkeq]
      constructor
      · rintro (h | h)
        · rcases List.mem_append.mp h with h' | h'
          · exact Or.inl h'
          · exact Or.inr (by simp_all)
        · exact Or.inr (by simp [h])
      · rintro (h | h)
        · exact Or.inl (List.mem_append.mpr (Or.inl h))
        · rcases List.mem_map.mp h with ⟨q, hq, rfl⟩
          rcases List.mem_cons.mp hq with rfl | hq'
          · exact Or.inl (List.mem_append.mpr (Or.inr (by simp)))
          · exact Or.inr (List.mem_map.mpr ⟨q, hq', rfl⟩)

theorem length_foldl_distinct (occ : List (String × String)) :
    (occ.foldl stepIns []).length = ((occ.map Prod.fst).toFinset).card := by
  obtain ⟨h1, h2⟩ := keys_foldl occ [] (by simp)
  have hlen : (occ.foldl stepIns []).length
      = ((occ.foldl stepIns []).map Prod.fst).length := by
    rw [List.length_map]
  rw [hlen, ← List.toFinset_card_of_nodup h1]
  congr 1
  ext k
  simp only [List.mem_toFinset]
  rw [h2 k]
  simp

/-! ## Concrete fixtures used by witnesses and counterexamples -/

/-- A concrete admin user. -/
def exAdmin : CurrentUser := { id := "u1", username := "alice", role := "admin" }

/-- A concrete editor user. -/
def exEditor : CurrentUser := { id := "u2", username := "bob", role := "editor" }

/-- A concrete viewer user. -/
def exViewer : CurrentUser := { id := "u3", username := "eve", role := "viewer" }

/-- A concrete active document. -/
def exDoc : Document :=
  { id := "doc1", title := "Q1 Report", category := some "Finance"
    deleted_at := none, created_at := 0, updated_at := 0 }

/-- Version 1 of `exDoc`. -/
def exVersion1 : DocumentVersion :=
  { id := "ver1", document_id := "doc1", version_number := 1
    file_name := "a.txt", file_path := "Finance/doc1/v1", file_size := 5
    mime_type := some "text/plain", checksum := none, created_at := 0 }

/-- Version 2 of `exDoc`. -/
def exVersion2 : DocumentVersion :=
  { id := "ver2", document_id := "doc1", version_number := 2
    file_name := "b.txt", file_path := "Finance/doc1/v2", file_size := 6
    mime_type := none, checksum := none, created_at := 1 }

/-- A concrete database with one document and two versions. -/
def exDb : Db := { documents := [exDoc], versions := [exVersion1, exVersion2] }

/-- A concrete object store holding both version payloads. -/
def exStorage : Storage :=
  [("Finance/doc1/v1", "hello"), ("Finance/doc1/v2", "world")]

/-- A concrete upload form targeting `exDoc`. -/
def exForm : UploadForm :=
  { document_id := some "doc1", title := none, category := some "Finance"
    file_name := some "c.txt", file_bytes := some "bytes!", mime_type := none
    meta := [.metaPrefixed "meta_department" "finance"] }

/-! ## Claims -/

/-- C1: `check_permission` implements exactly the permission matrix of
section 4.5 — Read/Stat allowed for "viewer", "editor", "admin"; Write only
for "editor" and "admin"; Delete and GetActions only for "admin" — and every
denial is the 400-class input error (`AppError::BadRequest`, the kind the
spec's taxonomy names InvalidInput) with the action-specific message. -/
theorem claim_C1 (u : CurrentUser) (a : StorageAction) :
    check_permission u a =
      if specAllows u.role a then .ok ()
      else .error (.BadRequest (specDenialMsg a)) := by
  cases a <;> simp [check_permission, check_permission_read, specAllows, specDenialMsg]

/-- C9: a `CurrentUser` whose role is not exactly "viewer", "editor" or
"admin" (e.g. "Admin", "superuser", "") is denied every `StorageAction`,
with the action-specific denial message. -/
theorem claim_C9 (u : CurrentUser) (a : StorageAction)
    (h1 : u.role ≠ "viewer") (h2 : u.role ≠ "editor") (h3 : u.role ≠ "admin") :
    check_permission u a = .error (.BadRequest (specDenialMsg a)) := by
  cases a <;> simp_all [check_permission, check_permission_read, specDenialMsg]

/-- Witness for C9: the capitalised role "Admin" is denied `Delete`. -/
theorem claim_C9_witness :
    check_permission { id := "u9", username := "carol", role := "Admin" }
        .Delete
      = .error (.BadRequest "Permission denied: admin access required") :=
  claim_C9 { id := "u9", username := "carol", role := "Admin" } .Delete
    (by decide) (by decide) (by decide)

/-- C7 counterexample: the body rendered for a permission denial is not the
literal handler message — `thiserror`'s `Display` prepends "bad request: ",
so the `error` field reads "bad request: Permission denied: write access
required". -/
theorem claim_C7_counterexample :
    ((AppError.BadRequest "Permission denied: write access required").intoResponse).2
      ≠ ⟨"Permission denied: write access required"⟩ := by
  decide

/-- C7 amended: every error response body is a JSON object with the single
field `error`, holding the error's `Display` rendering — which for
InvalidInput (`BadRequest`) is the handler's message prefixed with
"bad request: " and for NotFound the message prefixed with "not found: "
(statuses 400 and 404 respectively). -/
theorem claim_C7 (e : AppError) (msg : String) :
    e.intoResponse.2 = ⟨e.toMessage⟩
    ∧ (AppError.BadRequest msg).intoResponse = (400, ⟨"bad request: " ++ msg⟩)
    ∧ (AppError.NotFound msg).intoResponse = (404, ⟨"not found: " ++ msg⟩) :=
  ⟨rfl, rfl, rfl⟩

/-- C3: the assembled router (src/routes/mod.rs) carries the documentation
UI, the upload, documents and audit route groups and the tracing layer — but
none of the login, folders or tags endpoints, so those endpoints of the
section 6 table are unreachable. -/
theorem claim_C3 :
    ("POST", "/auth/login") ∉ router.routes
    ∧ ("POST", "/folders") ∉ router.routes
    ∧ ("GET", "/folders") ∉ router.routes
    ∧ ("POST", "/tags") ∉ router.routes
    ∧ ("POST", "/upload") ∈ router.routes
    ∧ ("GET", "/documents") ∈ router.routes
    ∧ ("GET", "/documents/:id/content") ∈ router.routes
    ∧ ("DELETE", "/documents/:id") ∈ router.routes
    ∧ ("DELETE", "/documents/:id/hard") ∈ router.routes
    ∧ ("GET", "/audit") ∈ router.routes
    ∧ ("GET", "/swagger-ui") ∈ router.routes
    ∧ ("GET", "/api-doc/openapi.json") ∈ router.routes
    ∧ router.traced = true := by
  decide

/-- C2 counterexample: for category "Finance Docs!" the key actually recorded
by the upload handler keeps the raw category, while the claim's sanitized key
replaces space and `!` by `_` — the two differ. -/
theorem claim_C2_counterexample :
    uploadStoredPath (some "Finance Docs!") "d0c" 1
        ≠ specStoredPath (some "Finance Docs!") "d0c" 1
    ∧ uploadStoredPath (some "Finance Docs!") "d0c" 1 = "Finance Docs!/d0c/v1"
    ∧ specStoredPath (some "Finance Docs!") "d0c" 1 = "Finance_Docs_/d0c/v1" :=
  ⟨by decide, rfl, rfl⟩

/-- C4: the version number of an upload against an existing document is
(max existing version) + 1, or 1 when no versions exist; a new document
starts at 1; hence after `k` sequential uploads the version numbers are
exactly `[1, 2, …, k]` — gap-free, strictly increasing, starting at 1. -/
theorem claim_C4 (k : Nat) :
    uploadVersions k = seqVersions k
    ∧ nextVersionNumber (uploadVersions k) = (k : Int) + 1
    ∧ nextVersionNumber [] = 1 := by
  obtain ⟨h1, h2⟩ := uploadVersions_spec k
  refine ⟨h1, ?_, rfl⟩
  rw [nextVersionNumber, h2]
  by_cases hj : k = 0
  · subst hj; simp
  · simp [hj]

/-- C10: over any sequence of metadata-bearing multipart fields, the stored
value of each key is its last occurrence's value, the reported count equals
the number of distinct keys, and the key list of `metadata_message` carries
one entry per occurrence — so a key supplied twice appears twice in the list
while contributing once to the count. -/
theorem claim_C10 (fields : List MetaField) :
    (processMetaFields fields).metadata_keys
        = (metaOccurrences fields).map Prod.fst
    ∧ (∀ k, lookupMeta (processMetaFields fields).metadata k
        = lastValue (metaOccurrences fields) k)
    ∧ (processMetaFields fields).metadata.length
        = ((metaOccurrences fields).map Prod.fst).toFinset.card
    ∧ (∀ k, (processMetaFields fields).metadata_keys.count k
        = ((metaOccurrences fields).map Prod.fst).count k) := by
  rw [processMetaFields_eq]
  exact ⟨rfl, fun k => lookupMeta_lastValue _ k, length_foldl_distinct _,
    fun k => rfl⟩

/-- Permission helper: any of the three recognized roles passes the `Read`
check. -/
theorem check_read_ok (user : CurrentUser)
    (hrole : user.role = "viewer" ∨ user.role = "editor" ∨ user.role = "admin") :
    check_permission user .Read = .ok () := by
  rcases hrole with h | h | h <;> simp [check_permission, check_permission_read, h]

/-- Permission helper: editor or admin passes the `Write` check. -/
theorem check_write_ok (user : CurrentUser)
    (hrole : user.role = "editor" ∨ user.role = "admin") :
    check_permission user .Write = .ok () := by
  rcases hrole with h | h <;> simp [check_permission, h]

/-- Permission helper: admin passes the `Delete` check. -/
theorem check_delete_ok (user : CurrentUser) (hrole : user.role = "admin") :
    check_permission user .Delete = .ok () := by
  simp [check_permission, hrole]

/-- Unfolding of `build_storage_path_with_folder` on a present folder name:
the folder component is the trimmed name, or `"Uncategorized"` when blank. -/
theorem build_path_some (c i : String) (n : Int) :
    build_storage_path_with_folder (some c) i n =
      (if (rustTrim c).isEmpty then "Uncategorized" else rustTrim c)
        ++ "/" ++ i ++ "/v" ++ toString n := by
  rw [build_storage_path_with_folder]
  by_cases h : (rustTrim c).isEmpty
  · rw [if_pos h]
    have he : Option.filter (fun s => !s.isEmpty)
        (Option.map rustTrim (some c)) = none := by
      simp [Option.filter, h]
    rw [he]
  · rw [if_neg h]
    have he : Option.filter (fun s => !s.isEmpty)
        (Option.map rustTrim (some c)) = some (rustTrim c) := by
      simp [Option.filter, h]
    rw [he]

/-- A maximal version number is attained by an actual row: the `find?` for
(document, max version) succeeds, on a row for that document with that
version number. -/
theorem maxVersion_attained (db : Db) (id : String) (m : Int)
    (h : maxVersionNumber db id = some m) :
    ∃ dv, findVersion db id m = some dv
      ∧ dv.document_id = id ∧ dv.version_number = m := by
  have hmem : m ∈ documentVersionNumbers db id :=
    List.max?_mem (fun a b => max_choice a b) h
  rcases List.mem_map.mp hmem with ⟨v, hv, hvn⟩
  have hvf := List.mem_filter.mp hv
  have hsome : (db.versions.find?
      (fun v => v.document_id == id && v.version_number == m)).isSome := by
    apply List.find?_isSome.mpr
    refine ⟨v, hvf.1, ?_⟩
    have h1 : (v.document_id == id) = true := hvf.2
    simp [h1, hvn]
  obtain ⟨dv, hdv⟩ := Option.isSome_iff_exists.mp hsome
  have hpred := List.find?_some hdv
  simp only [Bool.and_eq_true, beq_iff_eq] at hpred
  exact ⟨dv, hdv, hpred.1, hpred.2⟩

/-- List-shape helper: a trace ending in `t :: T` after two cons cells and
two appended segments decomposes as a prefix followed by `[t] ++ T`. -/
theorem exists_pre_commit (a x y t : Ev) (A B C T : List Ev) :
    ∃ pre, a :: (A ++ (B ++ x :: y :: (C ++ t :: T))) = pre ++ [t] ++ T :=
  ⟨a :: (A ++ (B ++ x :: y :: C)), by simp⟩

/-- List-shape helper: a trace of the download shape decomposes as a prefix
followed by `[s] ++ T`. -/
theorem exists_pre_read (a x s : Ev) (A T : List Ev) :
    ∃ pre, a :: (A ++ x :: s :: T) = pre ++ [s] ++ T :=
  ⟨a :: (A ++ [x]), by simp⟩

/-- C2 amended: the recorded storage key (response `stored_path`, the
`storageWrite` target, and the inserted `DocumentVersion`'s `file_path`) is
`{folder}/{document_id}/v{version_number}` where `{folder}` is the **raw
trimmed category** — not the sanitized category — or `"Uncategorized"` when
the category is absent or blank after trimming.  (Sanitization is applied
only to the sidecar folder-metadata key.) -/
theorem claim_C2 (user : CurrentUser) (db : Db) (sidecarExists : Bool)
    (form : UploadForm) (newDocId newVersionId : String) (now : Int)
    (auditOk : Bool)
    (hrole : user.role = "editor" ∨ user.role = "admin") :
    (∀ bytes doc_id d, form.file_bytes = some bytes →
      form.document_id = some doc_id → findDocumentById db doc_id = some d →
      ∃ resp evs row,
        upload_file user db sidecarExists form newDocId newVersionId now auditOk
          = (.ok resp, evs)
        ∧ resp.stored_path = build_storage_path_with_folder form.category d.id
            (nextVersionNumber (documentVersionNumbers db doc_id))
        ∧ Ev.dbInsertVersion row ∈ evs
        ∧ row.file_path = resp.stored_path
        ∧ Ev.storageWrite resp.stored_path ∈ evs)
    ∧ (∀ bytes t, form.file_bytes = some bytes → form.document_id = none →
      form.title = some t → t.isEmpty = false →
      ∃ resp evs row,
        upload_file user db sidecarExists form newDocId newVersionId now auditOk
          = (.ok resp, evs)
        ∧ resp.stored_path = build_storage_path_with_folder form.category newDocId 1
        ∧ Ev.dbInsertVersion row ∈ evs
        ∧ row.file_path = resp.stored_path)
    ∧ (∀ c i n, build_storage_path_with_folder (some c) i n =
        (if (rustTrim c).isEmpty then "Uncategorized" else rustTrim c)
          ++ "/" ++ i ++ "/v" ++ toString n)
    ∧ (∀ i n, build_storage_path_with_folder none i n =
        "Uncategorized" ++ "/" ++ i ++ "/v" ++ toString n) := by
  have hperm := check_write_ok user hrole
  refine ⟨?_, ?_, fun c i n => build_path_some c i n, fun i n => rfl⟩
  · intro bytes doc_id d hb hd hf
    simp only [upload_file, hperm, hb, hd, hf]
    refine ⟨_, _,
      uploadVersionRow newVersionId d.id
        (nextVersionNumber (documentVersionNumbers db doc_id))
        (form.file_name.getD "upload.bin")
        (build_storage_path_with_folder form.category d.id
          (nextVersionNumber (documentVersionNumbers db doc_id)))
        bytes.length form.mime_type now,
      rfl, rfl, ?_, rfl, ?_⟩
    · simp
    · simp
  · intro bytes t hb hd ht hte
    simp only [upload_file, hperm, hb, hd, ht, hte, Bool.not_false, if_true]
    refine ⟨_, _,
      uploadVersionRow newVersionId newDocId 1
        (form.file_name.getD "upload.bin")
        (build_storage_path_with_folder form.category newDocId 1)
        bytes.length form.mime_type now,
      rfl, rfl, ?_, rfl⟩
    simp

/-- Witness for C2 amended: a concrete upload of a third version with
category "Finance" against `exDb`. -/
theorem claim_C2_witness :
    ∃ resp evs row,
      upload_file exEditor exDb true exForm "newdoc" "newver" 7 true
        = (.ok resp, evs)
      ∧ resp.stored_path = build_storage_path_with_folder exForm.category
          exDoc.id (nextVersionNumber (documentVersionNumbers exDb "doc1"))
      ∧ Ev.dbInsertVersion row ∈ evs
      ∧ row.file_path = resp.stored_path
      ∧ Ev.storageWrite resp.stored_path ∈ evs :=
  (claim_C2 exEditor exDb true exForm "newdoc" "newver" 7 true
    (Or.inl rfl)).1 "bytes!" "doc1" exDoc rfl rfl rfl

/-- C5: download resolution — absent or soft-deleted document is NotFound
with "Document not found or has been deleted"; with no version parameter the
served row is the one carrying the maximum version number, and NotFound
"no versions found for this document" when none exist; with an explicit
version that exact row is served, and NotFound "document version not found"
when absent. -/
theorem claim_C5 (user : CurrentUser) (db : Db) (storage : Storage)
    (document_id : String) (qv : Option Int) (auditOk : Bool)
    (hrole : user.role = "viewer" ∨ user.role = "editor" ∨ user.role = "admin") :
    (findActiveDocument db document_id = none →
      (download_document user db storage document_id qv auditOk).1 =
        .error (.NotFound "Document not found or has been deleted"))
    ∧ (∀ d, findActiveDocument db document_id = some d →
        (qv = none → maxVersionNumber db document_id = none →
          (download_document user db storage document_id qv auditOk).1 =
            .error (.NotFound "no versions found for this document"))
        ∧ (∀ m, qv = none → maxVersionNumber db document_id = some m →
            ∃ dv, findVersion db document_id m = some dv
              ∧ dv.document_id = document_id ∧ dv.version_number = m
              ∧ (download_document user db storage document_id qv auditOk).1 =
                  (match storageReadKey storage dv.file_path with
                   | some data => .ok (downloadResponseFor dv data)
                   | none => .error (.Other "storage read failed")))
        ∧ (∀ v, qv = some v →
            (findVersion db document_id v = none →
              (download_document user db storage document_id qv auditOk).1 =
                .error (.NotFound "document version not found"))
            ∧ (∀ dv, findVersion db document_id v = some dv →
                (download_document user db storage document_id qv auditOk).1 =
                  (match storageReadKey storage dv.file_path with
                   | some data => .ok (downloadResponseFor dv data)
                   | none => .error (.Other "storage read failed"))))) := by
  have hperm := check_read_ok user hrole
  constructor
  · intro hnone
    simp [download_document, hperm, hnone]
  · intro d hfound
    refine ⟨?_, ?_, ?_⟩
    · intro hq hmax
      simp [download_document, hperm, hfound, hq, hmax]
    · intro m hq hmax
      obtain ⟨dv, hdv, hdid, hdvn⟩ := maxVersion_attained db document_id m hmax
      refine ⟨dv, hdv, hdid, hdvn, ?_⟩
      simp only [download_document, hperm, hfound, hq, hmax, hdv]
      cases hr : storageReadKey storage dv.file_path <;> simp [hr]
    · intro v hq
      constructor
      · intro hnone
        simp [download_document, hperm, hfound, hq, hnone]
      · intro dv hdv
        simp only [download_document, hperm, hfound, hq, hdv]
        cases hr : storageReadKey storage dv.file_path <;> simp [hr]

/-- Witness for C5: with no version parameter, the download against `exDb`
resolves to the version-2 row. -/
theorem claim_C5_witness :
    ∃ dv, findVersion exDb "doc1" 2 = some dv
      ∧ dv.document_id = "doc1" ∧ dv.version_number = 2
      ∧ (download_document exViewer exDb exStorage "doc1" none true).1 =
          (match storageReadKey exStorage dv.file_path with
           | some data => .ok (downloadResponseFor dv data)
           | none => .error (.Other "storage read failed")) :=
  ((claim_C5 exViewer exDb exStorage "doc1" none true
    (Or.inl rfl)).2 exDoc rfl).2.1 2 rfl rfl

/-- C6: soft delete by an admin — absent document is NotFound; an already
soft-deleted document is rejected with "Document is already deleted" and the
table is untouched; otherwise the conditional update (guarded by
`deleted_at IS NULL`) runs, a zero-row outcome yields "Document is already
deleted or not found", and the per-row update never modifies a row whose
`deleted_at` is already set — `deleted_at` is set at most once. -/
theorem claim_C6 (user : CurrentUser) (db : Db) (updateDocs : List Document)
    (now : Int) (document_id : String) (auditOk : Bool)
    (hrole : user.role = "admin") :
    (findDocumentById db document_id = none →
      soft_delete_document user db updateDocs now document_id auditOk =
        (.error (.NotFound "Document not found"), updateDocs,
         [.dbSelectDocument]))
    ∧ (∀ d t, findDocumentById db document_id = some d →
        d.deleted_at = some t →
        soft_delete_document user db updateDocs now document_id auditOk =
          (.error (.BadRequest "Document is already deleted"), updateDocs,
           [.dbSelectDocument]))
    ∧ (∀ d, findDocumentById db document_id = some d → d.deleted_at = none →
        ((condUpdateSetDeletedAt updateDocs document_id now).2 = 0 →
          soft_delete_document user db updateDocs now document_id auditOk =
            (.error (.BadRequest "Document is already deleted or not found"),
             (condUpdateSetDeletedAt updateDocs document_id now).1,
             [.dbSelectDocument, .dbUpdateDeletedAt]))
        ∧ ((condUpdateSetDeletedAt updateDocs document_id now).2 ≠ 0 →
          soft_delete_document user db updateDocs now document_id auditOk =
            (.ok { message := "Document soft-deleted successfully"
                   document_id := document_id, deleted_at := now },
             (condUpdateSetDeletedAt updateDocs document_id now).1,
             [.dbSelectDocument, .dbUpdateDeletedAt] ++ auditEvents auditOk)))
    ∧ (∀ d : Document, d.deleted_at ≠ none →
        condUpdateRow document_id now d = d) := by
  have hperm := check_delete_ok user hrole
  refine ⟨?_, ?_, ?_, ?_⟩
  · intro hnone
    simp [soft_delete_document, hperm, hnone]
  · intro d t hfound hdel
    simp [soft_delete_document, hperm, hfound, hdel]
  · intro d hfound hdel
    constructor
    · intro hzero
      simp [soft_delete_document, hperm, hfound, hdel, hzero]
    · intro hnz
      simp [soft_delete_document, hperm, hfound, hdel, hnz]
  · intro d hdel
    rw [condUpdateRow]
    have hb : (d.deleted_at == none) = false := by
      cases hd : d.deleted_at with
      | none => exact absurd hd hdel
      | some t => rfl
    simp [hb]

/-- Witness for C6: a concrete successful soft delete of the active `exDoc`. -/
theorem claim_C6_witness :
    soft_delete_document exAdmin exDb [exDoc] 5 "doc1" true =
      (.ok { message := "Document soft-deleted successfully"
             document_id := "doc1", deleted_at := 5 },
       (condUpdateSetDeletedAt [exDoc] "doc1" 5).1,
       [.dbSelectDocument, .dbUpdateDeletedAt] ++ auditEvents true) :=
  ((claim_C6 exAdmin exDb [exDoc] 5 "doc1" true rfl).2.2.1 exDoc rfl rfl).2
    (by decide)

/-- C8 counterexample: in the hard delete handler the audit insert happens
*before* the `DELETE FROM documents` statement (src/routes/documents.rs
lines 369-408), contradicting the claim that the audit call is made only
after the hard delete removes the document row. -/
theorem claim_C8_counterexample :
    ((hard_delete_document exAdmin exDb "doc1" true).2.indexOf Ev.auditInsert
      < (hard_delete_document exAdmin exDb "doc1" true).2.indexOf
          Ev.dbDeleteDocumentRow)
    ∧ Ev.auditInsert ∈ (hard_delete_document exAdmin exDb "doc1" true).2
    ∧ Ev.dbDeleteDocumentRow ∈ (hard_delete_document exAdmin exDb "doc1" true).2
    ∧ (hard_delete_document exAdmin exDb "doc1" true).1 =
        .ok { message := "Document hard-deleted successfully"
              document_id := "doc1", versions_deleted := 2 } :=
  ⟨by decide, by decide, by decide, rfl⟩

/-- C8 amended: an audit-insert failure is never propagated — each handler's
result (and, for soft delete, the resulting table) is the same whether the
audit insert succeeds or fails — and the audit call comes after the upload
transaction commit, after the download's storage read, and after the soft
delete's conditional update; in hard delete it comes after the storage
deletions but *before* the document row deletion. -/
theorem claim_C8 (user : CurrentUser) (db : Db) (sidecarExists : Bool)
    (form : UploadForm) (newDocId newVersionId : String) (now : Int)
    (storage : Storage) (updateDocs : List Document) (document_id : String)
    (qv : Option Int) (auditOk : Bool) :
    ((upload_file user db sidecarExists form newDocId newVersionId now auditOk).1
      = (upload_file user db sidecarExists form newDocId newVersionId now true).1)
    ∧ ((download_document user db storage document_id qv auditOk).1
      = (download_document user db storage document_id qv true).1)
    ∧ ((soft_delete_document user db updateDocs now document_id auditOk).1
      = (soft_delete_document user db updateDocs now document_id true).1)
    ∧ ((soft_delete_document user db updateDocs now document_id auditOk).2.1
      = (soft_delete_document user db updateDocs now document_id true).2.1)
    ∧ ((hard_delete_document user db document_id auditOk).1
      = (hard_delete_document user db document_id true).1)
    ∧ (∀ r evs,
      upload_file user db sidecarExists form newDocId newVersionId now auditOk
        = (.ok r, evs) →
      ∃ pre, evs = pre ++ [Ev.dbCommit] ++ auditEvents auditOk)
    ∧ (∀ r evs,
      download_document user db storage document_id qv auditOk = (.ok r, evs) →
      ∃ pre key, evs = pre ++ [Ev.storageRead key] ++ auditEvents auditOk)
    ∧ (∀ r t evs,
      soft_delete_document user db updateDocs now document_id auditOk
        = (.ok r, t, evs) →
      evs = [Ev.dbSelectDocument, Ev.dbUpdateDeletedAt] ++ auditEvents auditOk)
    ∧ (∀ r evs,
      hard_delete_document user db document_id auditOk = (.ok r, evs) →
      evs = [Ev.dbSelectDocument, Ev.dbSelectVersions]
        ++ (db.versions.filter
              (fun v => v.document_id == document_id)).map
            (fun v => Ev.storageDelete v.file_path)
        ++ auditEvents auditOk ++ [Ev.dbDeleteDocumentRow]) := by
  refine ⟨?_, ?_, ?_, ?_, ?_, ?_, ?_, ?_, ?_⟩
  · unfold upload_file
    split <;> try rfl
    split <;> try rfl
    dsimp only
    split <;> rfl
  · unfold download_document
    split <;> try rfl
    split <;> try rfl
    dsimp only
    split <;> try rfl
    split <;> try rfl
    split <;> rfl
  · unfold soft_delete_document
    split <;> try rfl
    split <;> try rfl
    split <;> try rfl
    dsimp only
    split <;> rfl
  · unfold soft_delete_document
    split <;> try rfl
    split <;> try rfl
    split <;> try rfl
    dsimp only
    split <;> rfl
  · unfold hard_delete_document
    split <;> try rfl
    split <;> try rfl
    dsimp only
    split <;> rfl
  · intro r evs h
    unfold upload_file at h
    split at h <;> try simp at h
    split at h <;> try simp at h
    try dsimp only at h
    split at h <;> simp at h
    obtain ⟨-, h2⟩ := h
    rw [← h2]
    exact exists_pre_commit _ _ _ _ _ _ _ _
  · intro r evs h
    unfold download_document at h
    split at h <;> try simp at h
    split at h <;> try simp at h
    try dsimp only at h
    split at h <;> try simp at h
    split at h <;> try simp at h
    rename_i dv hdv
    split at h <;> simp at h
    obtain ⟨-, h2⟩ := h
    rw [← h2]
    obtain ⟨pre, hp⟩ := exists_pre_read Ev.dbSelectDocument Ev.dbSelectVersion
      (Ev.storageRead dv.file_path) _ (auditEvents auditOk)
    exact ⟨pre, dv.file_path, hp⟩
  · intro r t evs h
    unfold soft_delete_document at h
    split at h <;> try simp at h
    split at h <;> try simp at h
    split at h <;> try simp at h
    try dsimp only at h
    split at h <;> simp at h
    exact h.2.2.symm
  · intro r evs h
    unfold hard_delete_document at h
    split at h <;> try simp at h
    split at h <;> try simp at h
    try dsimp only at h
    split at h <;> simp at h
    rw [← h.2]
    simp

/-- Witness for C8 amended: the soft delete of `exDoc` emits exactly the
select, the conditional update, and then the audit insert. -/
theorem claim_C8_witness :
    [Ev.dbSelectDocument, Ev.dbUpdateDeletedAt, Ev.auditInsert]
      = [Ev.dbSelectDocument, Ev.dbUpdateDeletedAt] ++ auditEvents true :=
  (claim_C8 exAdmin exDb true exForm "n1" "n2" 5 exStorage [exDoc] "doc1"
      none true).2.2.2.2.2.2.2.1
    { message := "Document soft-deleted successfully", document_id := "doc1"
      deleted_at := 5 }
    [{ exDoc with deleted_at := some 5 }]
    [Ev.dbSelectDocument, Ev.dbUpdateDeletedAt, Ev.auditInsert]
    rfl

end DMS
